import Mathlib

/-!
Verification development for the open-dydns repository: a shallow embedding
of the daemon core (store layer, authentication, token codec, alias
registry, HTTP boundary) and of the CLI client, with theorems settling the
stated properties of the specification.
-/

namespace OpenDydns

namespace Database

/-- User record of the database package: gorm model with unique Email and a hashed Password. -/
structure User where
  id : Nat
  email : String
  password : String
deriving DecidableEq, Repr

/-- Alias record of the database package: Host, Domain, Value and the owning UserID foreign key. -/
structure Alias where
  id : Nat
  host : String
  domain : String
  value : String
  userID : Nat
deriving DecidableEq, Repr

/-- Store is the persistence state behind the Connection interface: the user
table, the alias table, and the auto-increment counters gorm keeps for ids. -/
structure Store where
  users : List User
  aliases : List Alias
  nextAliasID : Nat
  nextUserID : Nat
deriving DecidableEq, Repr

/-- The state of a freshly migrated database: both tables empty. -/
def emptyStore : Store :=
  { users := [], aliases := [], nextAliasID := 0, nextUserID := 0 }

/-- connection.CreateUser: inserts a user row with the given email and hashed password; gorm assigns the id. -/
def CreateUser (email hashedPassword : String) (s : Store) : User × Store :=
  let u : User := { id := s.nextUserID, email := email, password := hashedPassword }
  (u, { s with users := s.users ++ [u], nextUserID := s.nextUserID + 1 })

/-- connection.FindUser: SELECT the first user whose email matches; a pure read. -/
def FindUser (email : String) (s : Store) : Option User :=
  s.users.find? (fun u => decide (u.email = email))

/-- connection.FindAlias: SELECT the first alias whose host and domain match, regardless of owner; a pure read. -/
def FindAlias (host domain : String) (s : Store) : Option Alias :=
  s.aliases.find? (fun a => decide (a.host = host ∧ a.domain = domain))

/-- connection.CreateAlias: appends the alias to the association of the given
user, so the stored row carries that user id; gorm assigns a fresh row id. -/
def CreateAlias (a : Alias) (userID : Nat) (s : Store) : Alias × Store :=
  let stored : Alias := { a with id := s.nextAliasID, userID := userID }
  (stored, { s with aliases := s.aliases ++ [stored], nextAliasID := s.nextAliasID + 1 })

/-- connection.DeleteAlias: DELETE every alias row matching host, domain and
user id; gorm reports no error when nothing matches. -/
def DeleteAlias (host domain : String) (userID : Nat) (s : Store) : Store :=
  { s with aliases := s.aliases.filter (fun a => decide (¬ (a.host = host ∧ a.domain = domain ∧ a.userID = userID))) }

/-- gorm Updates called with a struct literal skips zero-valued fields: an
empty Domain or Value string leaves the stored column untouched. -/
def updateFields (old upd : Alias) : Alias :=
  { old with
      domain := if upd.domain = "" then old.domain else upd.domain,
      value := if upd.value = "" then old.value else upd.value }

/-- connection.UpdateAlias: UPDATE the row keyed by the alias id, writing the
Domain and Value columns through gorm Updates. -/
def UpdateAlias (a : Alias) (s : Store) : Alias × Store :=
  (a, { s with aliases := s.aliases.map (fun b => if b.id = a.id then updateFields b a else b) })

end Database

namespace Daemon

open Database

/-- UserContext attached to every authenticated request: the verified user id and email. -/
structure UserContext where
  id : Nat
  email : String
deriving DecidableEq, Repr

/-- Error taxonomy of the core, as named in the specification. -/
inductive DError where
  | InvalidCredentials
  | Unauthorized
  | Forbidden
  | NotFound
  | Conflict
  | Malformed
  | InvalidSignature
  | Expired
  | Internal
deriving DecidableEq, Repr

/-- Modelled from the spec: the password hashing of the daemon package is not
under src/. Hashing is a salted one-way function of the plaintext; here a
concrete injective function, compared in full against the stored hash. -/
def hashPassword (plain : String) : String :=
  String.append "hashed:" plain

/-- Modelled from the spec: daemon.Authenticate is not under src/ (only its
caller API.authenticate is). It looks the user up by email through
connection.FindUser, compares the supplied password against the stored hash,
and performs no write; an absent user and a wrong password are
indistinguishable to the caller. State-passing form: the second component is
the store as the daemon leaves it. -/
def Authenticate (email password : String) (s : Store) : Except DError UserContext × Store :=
  match FindUser email s with
  | none => (Except.error DError.InvalidCredentials, s)
  | some u =>
      if hashPassword password = u.password then
        (Except.ok { id := u.id, email := u.email }, s)
      else
        (Except.error DError.InvalidCredentials, s)

/-- Modelled from the spec: daemon.RegisterAlias is not under src/. It fails
Conflict when any owner already holds the same host and domain pair
(connection.FindAlias is a global lookup), otherwise inserts the alias
through connection.CreateAlias, owned by the caller. -/
def RegisterAlias (ctx : UserContext) (host domain value : String) (s : Store) : Except DError Alias × Store :=
  match FindAlias host domain s with
  | some _ => (Except.error DError.Conflict, s)
  | none =>
      let r := CreateAlias { id := 0, host := host, domain := domain, value := value, userID := 0 } ctx.id s
      (Except.ok r.1, r.2)

/-- Modelled from the spec: daemon.UpdateAlias is not under src/. It finds the
alias by host and domain, fails NotFound when absent and Forbidden when the
owner differs from the caller, and otherwise writes the new value through
connection.UpdateAlias. -/
def UpdateAlias (ctx : UserContext) (host domain newValue : String) (s : Store) : Except DError Alias × Store :=
  match FindAlias host domain s with
  | none => (Except.error DError.NotFound, s)
  | some a =>
      if a.userID = ctx.id then
        let r := Database.UpdateAlias { a with value := newValue } s
        (Except.ok r.1, r.2)
      else
        (Except.error DError.Forbidden, s)

/-- Modelled from the spec: daemon.DeleteAlias is not under src/. Same lookup
and ownership check as UpdateAlias; on success the row is removed through
connection.DeleteAlias. -/
def DeleteAlias (ctx : UserContext) (host domain : String) (s : Store) : Except DError Unit × Store :=
  match FindAlias host domain s with
  | none => (Except.error DError.NotFound, s)
  | some a =>
      if a.userID = ctx.id then
        (Except.ok (), Database.DeleteAlias host domain ctx.id s)
      else
        (Except.error DError.Forbidden, s)

end Daemon

namespace Token

/-- Token payload: subject identity, issued-at instant and expiry instant. -/
structure Claims where
  subjectID : Nat
  subjectEmail : String
  issuedAt : Nat
  expiry : Nat
deriving DecidableEq, Repr

/-- Modelled from the spec: the JWT signing primitive (makeToken and the
jwt-go HMAC) is not under src/. The tag is a concrete function of the signing
key and the payload, recomputed and compared on validation. -/
def sign (key : List Nat) (c : Claims) : Nat :=
  (key.foldl (fun acc k => acc * 31 + k + 1) 7) * 1000003
    + c.subjectID * 13 + c.issuedAt * 17 + c.expiry * 19 + c.subjectEmail.length * 23

/-- Signed token: payload plus signature tag. -/
structure SignedToken where
  claims : Claims
  signature : Nat
deriving DecidableEq, Repr

/-- Wire form presented for validation: either a decodable token or undecodable bytes. -/
inductive Wire where
  | encoded (t : SignedToken)
  | garbage (raw : String)
deriving DecidableEq, Repr

/-- Decoding of the wire form; garbage does not parse. -/
def decode : Wire → Option SignedToken
  | Wire.encoded t => some t
  | Wire.garbage _ => none

/-- Modelled from the spec: TokenCodec.Issue is not under src/. Subject is the
identity, issued-at is now, expiry is now plus the configured TTL, and the
payload is signed with the process key. -/
def Issue (key : List Nat) (ctx : Daemon.UserContext) (now ttl : Nat) : SignedToken :=
  let c : Claims := { subjectID := ctx.id, subjectEmail := ctx.email, issuedAt := now, expiry := now + ttl }
  { claims := c, signature := sign key c }

/-- Modelled from the spec: TokenCodec.Validate is not under src/. Malformed
when the wire form does not decode, InvalidSignature when the tag does not
verify, Expired when now is past expiry, otherwise the embedded identity. -/
def Validate (key : List Nat) (w : Wire) (now : Nat) : Except Daemon.DError Daemon.UserContext :=
  match decode w with
  | none => Except.error Daemon.DError.Malformed
  | some t =>
      if t.signature = sign key t.claims then
        if t.claims.expiry < now then
          Except.error Daemon.DError.Expired
        else
          Except.ok { id := t.claims.subjectID, email := t.claims.subjectEmail }
      else
        Except.error Daemon.DError.InvalidSignature

end Token

namespace Api

/-- APIConfig fields the core reads: the signing key and the token TTL. -/
structure APIConfig where
  signingKey : List Nat
  ttl : Nat
deriving DecidableEq, Repr

/-- API, part_001 lines 37 to 41: the signing key copied from the config plus the TTL it uses when issuing. -/
structure API where
  signingKey : List Nat
  ttl : Nat
deriving DecidableEq, Repr

/-- getAuthMiddleware, part_001 line 71: the per-route auth middleware closes
over the key it was built with and validates every bearer token with it. -/
def getAuthMiddleware (key : List Nat) : Token.Wire → Nat → Except Daemon.DError Daemon.UserContext :=
  fun w now => Token.Validate key w now

/-- An API as NewAPI returns it: the API value together with the middleware built at construction. -/
structure BuiltAPI where
  api : API
  middleware : Token.Wire → Nat → Except Daemon.DError Daemon.UserContext

/-- NewAPI, part_001 lines 45 to 82: copies conf.SigningKey into the API once,
then builds the auth middleware from a.signingKey; no later code writes the field. -/
def NewAPI (conf : APIConfig) : BuiltAPI :=
  let a : API := { signingKey := conf.signingKey, ttl := conf.ttl }
  { api := a, middleware := getAuthMiddleware a.signingKey }

/-- Outcome of echo Bind on a request body: the parsed value or a parse failure. -/
inductive BindResult (α : Type) where
  | ok (val : α)
  | malformed

/-- CredentialsDto: the email and password request body. -/
structure CredentialsDto where
  email : String
  password : String
deriving DecidableEq, Repr

/-- HTTP response of a handler, as far as the claims observe it. -/
inductive Response where
  | noContent (status : Nat)
  | token (status : Nat) (t : Token.SignedToken)
  | jsonError (status : Nat)
deriving DecidableEq, Repr

/-- Modelled from the spec: the boundary mapping from daemon errors to HTTP
statuses (echo error handling plus the daemon error construction) is not
under src/; sections 6 and 7 of the spec fix the mapping. -/
def statusOf : Daemon.DError → Nat
  | Daemon.DError.InvalidCredentials => 401
  | Daemon.DError.Unauthorized => 401
  | Daemon.DError.Forbidden => 403
  | Daemon.DError.NotFound => 404
  | Daemon.DError.Conflict => 409
  | Daemon.DError.Malformed => 422
  | Daemon.DError.InvalidSignature => 401
  | Daemon.DError.Expired => 401
  | Daemon.DError.Internal => 500

/-- API.authenticate handler, part_001 lines 84 to 104: 422 when the body does
not bind, the mapped daemon error on authentication failure, otherwise 200
with the token signed with a.signingKey. -/
def authenticate (b : BuiltAPI) (body : BindResult CredentialsDto) (now : Nat) (s : Database.Store) : Response :=
  match body with
  | BindResult.malformed => Response.noContent 422
  | BindResult.ok cred =>
      match (Daemon.Authenticate cred.email cred.password s).1 with
      | Except.error e => Response.jsonError (statusOf e)
      | Except.ok ctx => Response.token 200 (Token.Issue b.api.signingKey ctx now b.api.ttl)

end Api

namespace Client

/-- ErrorDto: the error body shape of the protocol. -/
structure ErrorDto where
  message : String
deriving DecidableEq, Repr

/-- AliasDto: the alias body shape of the protocol. -/
structure AliasDto where
  host : String
  domain : String
  value : String
deriving DecidableEq, Repr

/-- TokenDto: the token body shape of the protocol. -/
structure TokenDto where
  token : String
deriving DecidableEq, Repr

/-- HTTP response as the resty client sees it: status code and raw error body. -/
structure HTTPResponse where
  status : Nat
  body : String
deriving DecidableEq, Repr

/-- nonNilError, client.go lines 60 to 64: an ErrorDto with an empty message means no error. -/
def nonNilError (e : ErrorDto) : Option ErrorDto :=
  if e.message = "" then none else some e

/-- resty SetError semantics: when the response status is an error status, the
response body is unmarshalled into the bound ErrorDto target; otherwise the
target keeps its zero value. -/
def boundError (r : HTTPResponse) : ErrorDto :=
  if 400 ≤ r.status then { message := r.body } else { message := "" }

/-- Client.RegisterAlias error path, client.go lines 43 to 50: the request
binds err via SetError, so the returned error reflects the response. -/
def RegisterAliasErr (r : HTTPResponse) : Option ErrorDto :=
  nonNilError (boundError r)

/-- Client.DeleteAlias, client.go lines 52 to 58: err is declared but never
passed to SetError, so it keeps its zero value whatever the server answers;
the function returns nonNilError of that zero value. -/
def DeleteAliasErr (_r : HTTPResponse) : Option ErrorDto :=
  let e : ErrorDto := { message := "" }
  nonNilError e

end Client

namespace Cli

/-- OpenDYDNSCLI.getRemoteIp, client.go lines 326 to 328: a stub returning the loopback address. -/
def getRemoteIp : String :=
  "127.0.0.1"

/-- OpenDYDNSCLI.getToken, client.go lines 318 to 324: fails when no token is stored in the config. -/
def getToken (confToken : String) : Except String Client.TokenDto :=
  if confToken = "" then Except.error "not logged in" else Except.ok { token := confToken }

/-- OpenDYDNSCLI.add, client.go lines 231 to 261: takes the first argument as
the alias name, obtains the stored token and the remote ip, then calls
Client.RegisterAlias with an AliasDto carrying Domain = name and Value = ip,
Host left at its zero value. The result is the token and request body handed
to the client. -/
def add (confToken : String) (args : List String) : Except String (Client.TokenDto × Client.AliasDto) :=
  match args with
  | [] => Except.error "missing ALIAS"
  | name :: _ =>
      match getToken confToken with
      | Except.error m => Except.error m
      | Except.ok tok => Except.ok (tok, { host := "", domain := name, value := getRemoteIp })

end Cli

namespace Daemon

open Database

/-- Each host and domain pair denotes at most one alias row, whoever owns it. -/
def UniqueHD (s : Store) : Prop :=
  ∀ a, a ∈ s.aliases → ∀ b, b ∈ s.aliases → a.host = b.host → a.domain = b.domain → a = b

/-- Structural store invariant: host-domain uniqueness, pairwise distinct row
ids, and every id below the auto-increment counter. -/
def StoreInv (s : Store) : Prop :=
  UniqueHD s ∧ (s.aliases.map (fun a => a.id)).Nodup ∧ ∀ a, a ∈ s.aliases → a.id < s.nextAliasID

/-- Reachable store states: every interleaving of core operations and user provisioning, from the empty store. -/
inductive Reachable : Store → Prop where
  | init : Reachable Database.emptyStore
  | createUser (email hashed : String) {s : Store} :
      Reachable s → Reachable (Database.CreateUser email hashed s).2
  | auth (email password : String) {s : Store} :
      Reachable s → Reachable (Authenticate email password s).2
  | register (ctx : UserContext) (host domain value : String) {s : Store} :
      Reachable s → Reachable (RegisterAlias ctx host domain value s).2
  | update (ctx : UserContext) (host domain newValue : String) {s : Store} :
      Reachable s → Reachable (UpdateAlias ctx host domain newValue s).2
  | delete (ctx : UserContext) (host domain : String) {s : Store} :
      Reachable s → Reachable (DeleteAlias ctx host domain s).2

/-- Authenticate passes the store through untouched, in both outcomes. -/
theorem authenticate_snd (email password : String) (s : Store) :
    (Authenticate email password s).2 = s := by
  unfold Authenticate
  cases FindUser email s with
  | none => rfl
  | some u =>
      by_cases hp : hashPassword password = u.password
      · simp [hp]
      · simp [hp]

/-- FindAlias misses exactly when no row carries the host and domain pair. -/
theorem findAlias_none_iff (host domain : String) (s : Store) :
    FindAlias host domain s = none ↔
      ∀ a, a ∈ s.aliases → ¬ (a.host = host ∧ a.domain = domain) := by
  unfold FindAlias
  rw [List.find?_eq_none]
  simp

/-- A FindAlias hit is a member row carrying the host and domain pair. -/
theorem findAlias_some (host domain : String) (s : Store) (a : Alias)
    (h : FindAlias host domain s = some a) :
    a ∈ s.aliases ∧ a.host = host ∧ a.domain = domain := by
  unfold FindAlias at h
  refine ⟨List.mem_of_find?_eq_some h, ?_⟩
  have hp := List.find?_some h
  simpa using hp

theorem storeInv_empty : StoreInv Database.emptyStore := by
  refine ⟨?_, ?_, ?_⟩ <;> simp [UniqueHD, Database.emptyStore]

theorem storeInv_createUser (email hashed : String) (s : Store) (h : StoreInv s) :
    StoreInv (Database.CreateUser email hashed s).2 := by
  obtain ⟨h1, h2, h3⟩ := h
  exact ⟨h1, h2, h3⟩

/-- Appending a row with a fresh id and a fresh host-domain pair preserves the invariant. -/
theorem storeInv_append (s : Store) (stored : Alias) (h : StoreInv s)
    (hid : stored.id = s.nextAliasID)
    (hfresh : ∀ a, a ∈ s.aliases → ¬ (a.host = stored.host ∧ a.domain = stored.domain)) :
    StoreInv { s with aliases := s.aliases ++ [stored], nextAliasID := s.nextAliasID + 1 } := by
  obtain ⟨h1, h2, h3⟩ := h
  refine ⟨?_, ?_, ?_⟩
  · intro a ha b hb hh hd
    rcases List.mem_append.mp ha with ha1 | ha1 <;> rcases List.mem_append.mp hb with hb1 | hb1
    · exact h1 a ha1 b hb1 hh hd
    · exfalso
      have hb2 : b = stored := List.mem_singleton.mp hb1
      subst hb2
      exact hfresh a ha1 ⟨hh, hd⟩
    · exfalso
      have ha2 : a = stored := List.mem_singleton.mp ha1
      subst ha2
      exact hfresh b hb1 ⟨hh.symm, hd.symm⟩
    · rw [List.mem_singleton.mp ha1, List.mem_singleton.mp hb1]
  · dsimp
    rw [List.map_append, List.nodup_append]
    refine ⟨h2, List.nodup_singleton _, ?_⟩
    intro x hx hxr
    rcases List.mem_map.mp hx with ⟨a, ha, rfl⟩
    have hax : a.id = stored.id := by simpa using hxr
    have : a.id < s.nextAliasID := h3 a ha
    rw [hax, hid] at this
    exact absurd this (Nat.lt_irrefl _)
  · intro a ha
    rcases List.mem_append.mp ha with ha1 | ha1
    · exact Nat.lt_succ_of_lt (h3 a ha1)
    · rw [List.mem_singleton.mp ha1, hid]
      exact Nat.lt_succ_self _

theorem storeInv_register (ctx : UserContext) (host domain value : String) (s : Store)
    (h : StoreInv s) : StoreInv (RegisterAlias ctx host domain value s).2 := by
  unfold RegisterAlias
  cases hf : FindAlias host domain s with
  | some a => exact h
  | none =>
      have hfresh : ∀ a, a ∈ s.aliases → ¬ (a.host = host ∧ a.domain = domain) :=
        (findAlias_none_iff host domain s).mp hf
      exact storeInv_append s
        { id := s.nextAliasID, host := host, domain := domain, value := value, userID := ctx.id }
        h rfl hfresh

/-- The raw row update preserves the invariant when the written row keeps the id, host and domain of a member row. -/
theorem storeInv_dbUpdate (s : Store) (a upd : Alias) (h : StoreInv s)
    (ha : a ∈ s.aliases) (hid : upd.id = a.id) (_hh : upd.host = a.host) (hd : upd.domain = a.domain) :
    StoreInv (Database.UpdateAlias upd s).2 := by
  obtain ⟨h1, h2, h3⟩ := h
  have hpt : ∀ b, b ∈ s.aliases →
      ((if b.id = upd.id then updateFields b upd else b).id = b.id ∧
       (if b.id = upd.id then updateFields b upd else b).host = b.host ∧
       (if b.id = upd.id then updateFields b upd else b).domain = b.domain) := by
    intro b hb
    by_cases hbid : b.id = upd.id
    · have hba : b = a := List.inj_on_of_nodup_map h2 hb ha (by rw [hbid, hid])
      rw [if_pos hbid]
      unfold updateFields
      refine ⟨rfl, rfl, ?_⟩
      by_cases hde : upd.domain = ""
      · rw [if_pos hde]
      · rw [if_neg hde, hd, hba]
    · rw [if_neg hbid]
      exact ⟨rfl, rfl, rfl⟩
  unfold Database.UpdateAlias
  refine ⟨?_, ?_, ?_⟩
  · intro x hx y hy hxh hxd
    rcases List.mem_map.mp hx with ⟨b, hb, rfl⟩
    rcases List.mem_map.mp hy with ⟨c, hc, rfl⟩
    obtain ⟨_, hbh, hbd⟩ := hpt b hb
    obtain ⟨_, hch, hcd⟩ := hpt c hc
    have hbc : b = c := h1 b hb c hc (by rw [← hbh, ← hch]; exact hxh) (by rw [← hbd, ← hcd]; exact hxd)
    rw [hbc]
  · dsimp
    rw [List.map_map]
    have heq : s.aliases.map
        ((fun x => x.id) ∘ fun b => if b.id = upd.id then updateFields b upd else b) =
        s.aliases.map (fun b => b.id) :=
      List.map_congr_left (fun b hb => (hpt b hb).1)
    rw [heq]
    exact h2
  · intro x hx
    rcases List.mem_map.mp hx with ⟨b, hb, rfl⟩
    have hb1 := (hpt b hb).1
    dsimp at hb1 ⊢
    rw [hb1]
    exact h3 b hb

theorem storeInv_update (ctx : UserContext) (host domain newValue : String) (s : Store)
    (h : StoreInv s) : StoreInv (UpdateAlias ctx host domain newValue s).2 := by
  unfold UpdateAlias
  cases hf : FindAlias host domain s with
  | none => exact h
  | some a =>
      obtain ⟨hamem, hah, had⟩ := findAlias_some host domain s a hf
      dsimp only
      by_cases hown : a.userID = ctx.id
      · rw [if_pos hown]
        exact storeInv_dbUpdate s a { a with value := newValue } h hamem rfl rfl rfl
      · rw [if_neg hown]
        exact h

theorem storeInv_dbDelete (host domain : String) (uid : Nat) (s : Store) (h : StoreInv s) :
    StoreInv (Database.DeleteAlias host domain uid s) := by
  obtain ⟨h1, h2, h3⟩ := h
  unfold Database.DeleteAlias
  refine ⟨?_, ?_, ?_⟩
  · intro a ha b hb hh hd
    exact h1 a (List.mem_of_mem_filter ha) b (List.mem_of_mem_filter hb) hh hd
  · exact List.Nodup.sublist (List.Sublist.map _ (List.filter_sublist _)) h2
  · intro a ha
    exact h3 a (List.mem_of_mem_filter ha)

theorem storeInv_delete (ctx : UserContext) (host domain : String) (s : Store)
    (h : StoreInv s) : StoreInv (DeleteAlias ctx host domain s).2 := by
  unfold DeleteAlias
  cases hf : FindAlias host domain s with
  | none => exact h
  | some a =>
      dsimp only
      by_cases hown : a.userID = ctx.id
      · rw [if_pos hown]
        exact storeInv_dbDelete host domain ctx.id s h
      · rw [if_neg hown]
        exact h

/-- Every reachable store satisfies the structural invariant. -/
theorem storeInv_reachable (s : Store) (h : Reachable s) : StoreInv s := by
  induction h with
  | init => exact storeInv_empty
  | createUser email hashed hprev ih => exact storeInv_createUser email hashed _ ih
  | auth email password hprev ih => rw [authenticate_snd]; exact ih
  | register ctx host domain value hprev ih => exact storeInv_register ctx host domain value _ ih
  | update ctx host domain newValue hprev ih => exact storeInv_update ctx host domain newValue _ ih
  | delete ctx host domain hprev ih => exact storeInv_delete ctx host domain _ ih

/-- Authenticate can only fail with InvalidCredentials. -/
theorem authenticate_error_invalid (email password : String) (s : Store) (e : DError)
    (h : (Authenticate email password s).1 = Except.error e) : e = DError.InvalidCredentials := by
  unfold Authenticate at h
  cases hf : FindUser email s with
  | none =>
      rw [hf] at h
      simp only [Except.error.injEq] at h
      exact h.symm
  | some u =>
      rw [hf] at h
      dsimp only at h
      by_cases hp : hashPassword password = u.password
      · rw [if_pos hp] at h
        simp at h
      · rw [if_neg hp] at h
        simp only [Except.error.injEq] at h
        exact h.symm

end Daemon

/-- C9: Client.DeleteAlias never reports an error: for every server response,
including 401, 403 and 404 answers, the returned error is nil, because the
response error body is never bound to the ErrorDto the function checks. -/
theorem client_delete_alias_always_nil :
    ∀ r : Client.HTTPResponse, Client.DeleteAliasErr r = none := by
  intro r
  rfl

/-- C10: every CLI add invocation that reaches the client sends an alias
registration request whose Value is the constant loopback address from the
getRemoteIp stub, whose Domain is the user-supplied name, and whose Host is
empty. -/
theorem cli_add_request_shape (confToken name : String) (rest : List String)
    (tok : Client.TokenDto) (bodyA : Client.AliasDto)
    (hok : Cli.add confToken (name :: rest) = Except.ok (tok, bodyA)) :
    bodyA.value = "127.0.0.1" ∧ bodyA.domain = name ∧ bodyA.host = "" := by
  unfold Cli.add at hok
  unfold Cli.getToken at hok
  by_cases h : confToken = ""
  · simp [h] at hok
  · simp [h] at hok
    obtain ⟨h1, h2⟩ := hok
    subst h2
    exact ⟨rfl, rfl, rfl⟩

/-- Witness for C10 at a concrete invocation. -/
theorem cli_add_request_shape_witness :
    ({ host := "", domain := "myalias", value := "127.0.0.1" } : Client.AliasDto).value = "127.0.0.1" ∧
    ({ host := "", domain := "myalias", value := "127.0.0.1" } : Client.AliasDto).domain = "myalias" ∧
    ({ host := "", domain := "myalias", value := "127.0.0.1" } : Client.AliasDto).host = "" :=
  cli_add_request_shape "stored-token" "myalias" [] { token := "stored-token" }
    { host := "", domain := "myalias", value := "127.0.0.1" } rfl

/-! Concrete states used by the witnesses. -/

/-- Identity of the first user. -/
def ctxA : Daemon.UserContext := { id := 1, email := "a@x" }

/-- Identity of a second, distinct user. -/
def ctxB : Daemon.UserContext := { id := 2, email := "b@x" }

/-- The store after user A registers the alias home example.com. -/
def storeA : Database.Store :=
  (Daemon.RegisterAlias ctxA "home" "example.com" "1.2.3.4" Database.emptyStore).2

/-- The alias row storeA holds. -/
def rowA : Database.Alias :=
  { id := 0, host := "home", domain := "example.com", value := "1.2.3.4", userID := 1 }

theorem reachA : Daemon.Reachable storeA :=
  Daemon.Reachable.register ctxA "home" "example.com" "1.2.3.4" Daemon.Reachable.init

/-- The store holding one provisioned user whose password is pw. -/
def storeU : Database.Store :=
  (Database.CreateUser "u@x" (Daemon.hashPassword "pw") Database.emptyStore).2

/-- C1: in every reachable store the host and domain pair is globally unique
across all users; Register fails with Conflict whenever any existing alias of
any owner carries the same pair; and on success the new alias is owned by the
caller identity. -/
theorem register_global_uniqueness (s : Database.Store) (h : Daemon.Reachable s) :
    Daemon.UniqueHD s ∧
    (∀ ctx host domain value,
      (∃ a, a ∈ s.aliases ∧ a.host = host ∧ a.domain = domain) →
        (Daemon.RegisterAlias ctx host domain value s).1 = Except.error Daemon.DError.Conflict) ∧
    (∀ ctx host domain value out s2,
      Daemon.RegisterAlias ctx host domain value s = (Except.ok out, s2) → out.userID = ctx.id) := by
  refine ⟨(Daemon.storeInv_reachable s h).1, ?_, ?_⟩
  · rintro ctx host domain value ⟨a, ha, hah, had⟩
    unfold Daemon.RegisterAlias
    cases hf : Database.FindAlias host domain s with
    | some b => rfl
    | none =>
        exfalso
        exact (Daemon.findAlias_none_iff host domain s).mp hf a ha ⟨hah, had⟩
  · intro ctx host domain value out s2 hreg
    unfold Daemon.RegisterAlias at hreg
    cases hf : Database.FindAlias host domain s with
    | some b =>
        rw [hf] at hreg
        exact absurd hreg (by simp)
    | none =>
        rw [hf] at hreg
        simp only [Database.CreateAlias, Prod.mk.injEq, Except.ok.injEq] at hreg
        obtain ⟨hout, _⟩ := hreg
        rw [← hout]

/-- Witness for C1: a second owner registering the same pair hits Conflict. -/
theorem register_global_uniqueness_witness :
    (Daemon.RegisterAlias ctxB "home" "example.com" "5.6.7.8" storeA).1 =
      Except.error Daemon.DError.Conflict :=
  (register_global_uniqueness storeA reachA).2.1 ctxB "home" "example.com" "5.6.7.8"
    ⟨rowA, by decide, rfl, rfl⟩

/-- C2: on every reachable store, Update and Delete fail with Forbidden when
the matching alias belongs to a different owner and with NotFound when no
alias matches the pair, and in all of these cases the store is unchanged. -/
theorem update_delete_ownership (s : Database.Store) (h : Daemon.Reachable s)
    (ctx : Daemon.UserContext) (host domain newValue : String) :
    ((∃ a, a ∈ s.aliases ∧ a.host = host ∧ a.domain = domain ∧ a.userID ≠ ctx.id) →
      Daemon.UpdateAlias ctx host domain newValue s = (Except.error Daemon.DError.Forbidden, s) ∧
      Daemon.DeleteAlias ctx host domain s = (Except.error Daemon.DError.Forbidden, s)) ∧
    ((∀ a, a ∈ s.aliases → ¬ (a.host = host ∧ a.domain = domain)) →
      Daemon.UpdateAlias ctx host domain newValue s = (Except.error Daemon.DError.NotFound, s) ∧
      Daemon.DeleteAlias ctx host domain s = (Except.error Daemon.DError.NotFound, s)) := by
  constructor
  · rintro ⟨a, ha, hah, had, how⟩
    have huniq := (Daemon.storeInv_reachable s h).1
    cases hf : Database.FindAlias host domain s with
    | none =>
        exfalso
        exact (Daemon.findAlias_none_iff host domain s).mp hf a ha ⟨hah, had⟩
    | some b =>
        obtain ⟨hbmem, hbh, hbd⟩ := Daemon.findAlias_some host domain s b hf
        have hba : b = a := huniq b hbmem a ha (by rw [hbh, hah]) (by rw [hbd, had])
        have hbo : ¬ b.userID = ctx.id := by rw [hba]; exact how
        constructor
        · unfold Daemon.UpdateAlias
          rw [hf]
          dsimp only
          rw [if_neg hbo]
        · unfold Daemon.DeleteAlias
          rw [hf]
          dsimp only
          rw [if_neg hbo]
  · intro hnone
    have hf : Database.FindAlias host domain s = none :=
      (Daemon.findAlias_none_iff host domain s).mpr hnone
    constructor
    · unfold Daemon.UpdateAlias
      rw [hf]
    · unfold Daemon.DeleteAlias
      rw [hf]

/-- Witness for C2: user B touching the alias of user A gets Forbidden and the store stays put. -/
theorem update_delete_ownership_witness :
    Daemon.UpdateAlias ctxB "home" "example.com" "9.9.9.9" storeA =
      (Except.error Daemon.DError.Forbidden, storeA) ∧
    Daemon.DeleteAlias ctxB "home" "example.com" storeA =
      (Except.error Daemon.DError.Forbidden, storeA) :=
  (update_delete_ownership storeA reachA ctxB "home" "example.com" "9.9.9.9").1
    ⟨rowA, by decide, rfl, rfl, by decide⟩

/-- C3: any identity returned by a successful Authenticate round-trips through
the token codec: validating the freshly issued token succeeds and yields an
equal identity. -/
theorem token_round_trip (email password : String) (s : Database.Store)
    (ctx : Daemon.UserContext) (key : List Nat) (now ttl : Nat)
    (_hauth : (Daemon.Authenticate email password s).1 = Except.ok ctx) :
    Token.Validate key (Token.Wire.encoded (Token.Issue key ctx now ttl)) now = Except.ok ctx := by
  unfold Token.Validate Token.Issue Token.decode
  dsimp only
  rw [if_pos rfl, if_neg (by omega : ¬ (now + ttl < now))]

/-- Witness for C3 at a concrete user and key. -/
theorem token_round_trip_witness :
    Token.Validate [5] (Token.Wire.encoded (Token.Issue [5] { id := 0, email := "u@x" } 100 3600)) 100 =
      Except.ok { id := 0, email := "u@x" } :=
  token_round_trip "u@x" "pw" storeU { id := 0, email := "u@x" } [5] 100 3600 rfl

/-- C4: with intact encoding and signature, Validate fails with Expired exactly
when the validation instant is after the token expiry. -/
theorem validate_expired_iff (t : Token.SignedToken) (key : List Nat) (now : Nat)
    (hsig : t.signature = Token.sign key t.claims) :
    (Token.Validate key (Token.Wire.encoded t) now = Except.error Daemon.DError.Expired ↔
      t.claims.expiry < now) := by
  unfold Token.Validate Token.decode
  dsimp only
  rw [if_pos hsig]
  by_cases hexp : t.claims.expiry < now
  · simp [hexp]
  · simp [hexp]

/-- A concrete token payload for the C4 witness. -/
def claimsC : Token.Claims := { subjectID := 1, subjectEmail := "e", issuedAt := 0, expiry := 10 }

/-- The payload signed with the key 3. -/
def tokC : Token.SignedToken := { claims := claimsC, signature := Token.sign [3] claimsC }

/-- Witness for C4: validating one instant after expiry fails with Expired. -/
theorem validate_expired_iff_witness :
    Token.Validate [3] (Token.Wire.encoded tokC) 11 = Except.error Daemon.DError.Expired :=
  (validate_expired_iff tokC [3] 11 rfl).mpr (by decide)

/-- C5: every successful Update changes only the value of the matched alias:
its id, owner, host and domain are unchanged, every other alias is untouched,
and so are the user table and the id counter. -/
theorem update_frame (s : Database.Store) (h : Daemon.Reachable s)
    (ctx : Daemon.UserContext) (host domain newValue : String)
    (out : Database.Alias) (s2 : Database.Store)
    (hsucc : Daemon.UpdateAlias ctx host domain newValue s = (Except.ok out, s2)) :
    s2.users = s.users ∧ s2.nextAliasID = s.nextAliasID ∧
    ∃ a, a ∈ s.aliases ∧ a.host = host ∧ a.domain = domain ∧ a.userID = ctx.id ∧
      s2.aliases = s.aliases.map (fun b =>
        if b = a then { a with value := if newValue = "" then a.value else newValue } else b) := by
  unfold Daemon.UpdateAlias at hsucc
  cases hf : Database.FindAlias host domain s with
  | none =>
      rw [hf] at hsucc
      exact absurd hsucc (by simp)
  | some a =>
      rw [hf] at hsucc
      dsimp only at hsucc
      obtain ⟨hamem, hah, had⟩ := Daemon.findAlias_some host domain s a hf
      obtain ⟨h1, h2, h3⟩ := Daemon.storeInv_reachable s h
      by_cases hown : a.userID = ctx.id
      · rw [if_pos hown] at hsucc
        simp only [Database.UpdateAlias, Prod.mk.injEq, Except.ok.injEq] at hsucc
        obtain ⟨hout, hs2⟩ := hsucc
        subst hs2
        refine ⟨rfl, rfl, a, hamem, hah, had, hown, ?_⟩
        dsimp only
        apply List.map_congr_left
        intro b hb
        by_cases hbid : b.id = a.id
        · have hba : b = a := List.inj_on_of_nodup_map h2 hb hamem hbid
          subst hba
          rw [if_pos rfl, if_pos rfl]
          unfold Database.updateFields
          by_cases hde : b.domain = ""
          · rw [if_pos hde]
          · rw [if_neg hde]
        · have hbne : ¬ b = a := fun hba => hbid (by rw [hba])
          rw [if_neg hbid, if_neg hbne]
      · rw [if_neg hown] at hsucc
        exact absurd hsucc (by simp)

/-- The store after user A overwrites the value of its alias. -/
def storeA2 : Database.Store :=
  (Daemon.UpdateAlias ctxA "home" "example.com" "7.7.7.7" storeA).2

/-- The alias row as the successful update returns it. -/
def rowA2 : Database.Alias :=
  { id := 0, host := "home", domain := "example.com", value := "7.7.7.7", userID := 1 }

/-- Witness for C5 at a concrete successful update. -/
theorem update_frame_witness :
    storeA2.users = storeA.users ∧ storeA2.nextAliasID = storeA.nextAliasID ∧
    ∃ a, a ∈ storeA.aliases ∧ a.host = "home" ∧ a.domain = "example.com" ∧ a.userID = ctxA.id ∧
      storeA2.aliases = storeA.aliases.map (fun b =>
        if b = a then { a with value := if "7.7.7.7" = "" then a.value else "7.7.7.7" } else b) :=
  update_frame storeA reachA ctxA "home" "example.com" "7.7.7.7" rowA2 storeA2 rfl

/-- C6: the POST sessions handler answers 422 when the body does not bind, 401
whenever the daemon rejects the credentials, and 200 carrying the issued token
on success. -/
theorem sessions_responses (b : Api.BuiltAPI) (body : Api.BindResult Api.CredentialsDto)
    (now : Nat) (s : Database.Store) :
    (body = Api.BindResult.malformed → Api.authenticate b body now s = Api.Response.noContent 422) ∧
    (∀ cred e, body = Api.BindResult.ok cred →
      (Daemon.Authenticate cred.email cred.password s).1 = Except.error e →
        Api.authenticate b body now s = Api.Response.jsonError 401) ∧
    (∀ cred ctx, body = Api.BindResult.ok cred →
      (Daemon.Authenticate cred.email cred.password s).1 = Except.ok ctx →
        Api.authenticate b body now s =
          Api.Response.token 200 (Token.Issue b.api.signingKey ctx now b.api.ttl)) := by
  refine ⟨?_, ?_, ?_⟩
  · rintro rfl
    rfl
  · rintro cred e rfl herr
    have he : e = Daemon.DError.InvalidCredentials :=
      Daemon.authenticate_error_invalid cred.email cred.password s e herr
    unfold Api.authenticate
    dsimp only
    rw [herr]
    subst he
    rfl
  · rintro cred ctx rfl hok
    unfold Api.authenticate
    dsimp only
    rw [hok]

/-- The API as NewAPI builds it from a concrete config. -/
def bApi : Api.BuiltAPI := Api.NewAPI { signingKey := [9], ttl := 60 }

/-- Witness for C6: bad credentials against the provisioned store answer 401. -/
theorem sessions_responses_witness :
    Api.authenticate bApi (Api.BindResult.ok { email := "u@x", password := "bad" }) 5 storeU =
      Api.Response.jsonError 401 :=
  (sessions_responses bApi (Api.BindResult.ok { email := "u@x", password := "bad" }) 5 storeU).2.1
    { email := "u@x", password := "bad" } Daemon.DError.InvalidCredentials rfl rfl

/-- C7: Authenticate has no side effect on the store: the state after the call
equals the state before it, whether it succeeds or fails. -/
theorem authenticate_no_side_effect (email password : String) (s : Database.Store) :
    (Daemon.Authenticate email password s).2 = s :=
  Daemon.authenticate_snd email password s

/-- C8: the signing key is fixed at construction: NewAPI copies the configured
key once, the middleware it builds validates with exactly that key, and every
token the session handler issues over the lifetime of the instance is signed
with that same key. -/
theorem signing_key_fixed (conf : Api.APIConfig) :
    (Api.NewAPI conf).api.signingKey = conf.signingKey ∧
    (Api.NewAPI conf).middleware = Token.Validate conf.signingKey ∧
    (∀ body now s st t, Api.authenticate (Api.NewAPI conf) body now s = Api.Response.token st t →
      t.signature = Token.sign conf.signingKey t.claims) := by
  refine ⟨rfl, rfl, ?_⟩
  intro body now s st t hresp
  cases body with
  | malformed => exact absurd hresp (by simp [Api.authenticate])
  | ok cred =>
      unfold Api.authenticate at hresp
      dsimp only at hresp
      cases hA : (Daemon.Authenticate cred.email cred.password s).1 with
      | error e =>
          rw [hA] at hresp
          exact absurd hresp (by simp)
      | ok ctx =>
          rw [hA] at hresp
          simp only [Api.Response.token.injEq] at hresp
          obtain ⟨_, ht⟩ := hresp
          rw [← ht]
          rfl

/-- Witness for C8 at a concrete issuance through the handler. -/
theorem signing_key_fixed_witness :
    (Token.Issue [9] { id := 0, email := "u@x" } 11 60).signature =
      Token.sign [9] (Token.Issue [9] { id := 0, email := "u@x" } 11 60).claims :=
  (signing_key_fixed { signingKey := [9], ttl := 60 }).2.2
    (Api.BindResult.ok { email := "u@x", password := "pw" }) 11 storeU 200
    (Token.Issue [9] { id := 0, email := "u@x" } 11 60) rfl

end OpenDydns
